import Mathlib

/-!
# Distributed ray tracing driver (`raytracing_mpi.cpp`): partition, gather and assembly

A shallow embedding of `main` of `raytracing_mpi.cpp`.  Every MPI process runs the same
`main`; a process is identified by `rank` in a group of `size` processes.

* C++ `int` values are `Int`; `/` on `int` truncates toward zero and is `Int.tdiv`.
  The arithmetic is the mathematical one: runs in which an `int` expression leaves the
  32-bit range have no defined behaviour in C++ and are outside the model.
* `double` samples are values of an arbitrary type `S`, durations values of a linearly
  ordered type `T`.
* The pixel renderer `viewPlane.computePixel(scene, x, y, numOfSamples)` is a parameter
  `computePixel : Int → Int → Int → Color S` (the scene is fixed during a run).
* What a process does is recorded as a list of `Event`s in program order, next to the
  images it builds.
-/

namespace Raytracing

/-! ## Loops -/

/-- The values taken, in order, by `i` in `for (int i = 0; i < n; i++)`. -/
def loopRange (n : Int) : List Int :=
  (List.range n.toNat).map Int.ofNat

/-! ## Colors and images -/

/-- A color sample: three channel intensities. -/
structure Color (S : Type) where
  r : S
  g : S
  b : S
deriving DecidableEq

instance {S : Type} [Inhabited S] : Inhabited (Color S) :=
  ⟨⟨default, default, default⟩⟩

/-- Modelled from the spec: the class `Image` of `minirt/minirt.h`, which is not among the
sources.  A dense buffer of `width × height` color samples in a fixed raster order (here
row by row), each color being three consecutive samples of the flat payload. -/
structure Image (S : Type) where
  width : Int
  height : Int
  data : List (Color S)
deriving DecidableEq

namespace Image

variable {S : Type}

/-- Modelled from the spec: the constructor `Image(width, height)` of minirt, a buffer of
`width * height` colors. -/
def create [Inhabited S] (width height : Int) : Image S :=
  ⟨width, height, List.replicate (width * height).toNat default⟩

/-- Whether `(x, y)` is a coordinate of the image. -/
def inside (img : Image S) (x y : Int) : Bool :=
  decide (0 ≤ x ∧ x < img.width ∧ 0 ≤ y ∧ y < img.height)

/-- Position of pixel `(x, y)` in the buffer. -/
def index (img : Image S) (x y : Int) : Nat :=
  (y * img.width + x).toNat

/-- Modelled from the spec: `Image::set(x, y, color)` of minirt. -/
def set (img : Image S) (x y : Int) (c : Color S) : Image S :=
  if img.inside x y then { img with data := img.data.set (img.index x y) c } else img

/-- Modelled from the spec: `Image::get(x, y)` of minirt. -/
def get [Inhabited S] (img : Image S) (x y : Int) : Color S :=
  img.data.getD (img.index x y) default

/-- Modelled from the spec: `Image::getData()` of minirt, the buffer as a flat sequence of
samples, three per color. -/
def getData (img : Image S) : List S :=
  img.data.flatMap fun c => [c.r, c.g, c.b]

end Image

/-- Reading a flat sequence of samples back as colors, three samples per color. -/
def unpack {S : Type} : List S → List (Color S)
  | r :: g :: b :: rest => ⟨r, g, b⟩ :: unpack rest
  | _ => []

/-! ## Message passing -/

/-- What `MPI_Isend(buf, count, MPI_DOUBLE, ...)` transmits: the first `count` samples of
the buffer. -/
def mpiPayload {S : Type} (buf : List S) (count : Int) : List S :=
  buf.take count.toNat

/-- The effect of `MPI_Recv(img.getData(), count, MPI_DOUBLE, src, ...)` on the receiving
image when the matching message is `msg`: the message overwrites the front of the buffer.
A message longer than `count` is a truncation error (`none`). -/
def mpiRecv {S : Type} (img : Image S) (count : Int) (msg : List S) : Option (Image S) :=
  if msg.length ≤ count.toNat then
    some { img with data := unpack (msg ++ img.getData.drop msg.length) }
  else
    none

/-- The value `MPI_Reduce(&time, &max_exc, 1, MPI_DOUBLE, MPI_MAX, 0, ...)` stores at the
root: the `MPI_MAX` combination of the contributions of ranks `0 .. size-1`. -/
def mpiReduceMax {T : Type} [LinearOrder T] (time : Int → T) (size : Int) : T :=
  (loopRange size).foldl (fun acc r => max acc (time r)) (time 0)

/-! ## Command line -/

/-- The two exceptions of `std::stoi`. -/
inductive StoiError where
  | invalid_argument
  | out_of_range
deriving DecidableEq

/-- The locals of `main` read from the command line. -/
structure Args where
  viewPlaneResolutionX : Int
  viewPlaneResolutionY : Int
  numOfSamples : Int
  sceneFile : String
deriving DecidableEq

/-- The observable steps of one process, in the order `main` performs them. -/
inductive Event (T : Type) where
  | mpiInit
  | setupScene (sceneFile : String)
  | allocPiece (width height : Int)
  | computePixel (gx gy numOfSamples : Int)
  | pieceSet (x y : Int)
  | printRankTime (rank : Int) (time : T)
  | reduceMax (time : T)
  | printMaxTime (max_exc : T)
  | isend (count dest : Int)
  | allocFinal (width height : Int)
  | allocSrc (width height : Int)
  | recv (count src : Int)
  | srcGet (x y : Int)
  | finalSet (gx gy : Int)
  | saveJPEG (name : String)
  | mpiWait
  | mpiFinalize
deriving DecidableEq

/-! ## The two pixel loops -/

/-- One iteration of a pixel loop: the tile coordinate `(x, y)` and the image coordinate
`(gx, gy)` it is paired with. -/
structure PixelOp where
  x : Int
  y : Int
  gx : Int
  gy : Int
deriving DecidableEq

/-- Iterations of the compute loop (lines 86-91) of process `rank`, in order. -/
def renderOps (mySizeX mySizeY rank : Int) : List PixelOp :=
  (loopRange mySizeX).flatMap fun x =>
    (loopRange mySizeY).map fun y => ⟨x, y, x + mySizeX * rank, y⟩

/-- Iterations of the copy loop (lines 119-123) for the piece of `src_rank`, in order. -/
def copyOps (mySizeX mySizeY src_rank : Int) : List PixelOp :=
  (loopRange mySizeX).flatMap fun x =>
    (loopRange mySizeY).map fun y => ⟨x, y, x + src_rank * mySizeX, y⟩

/-- The tile after the compute loop: `myPiece.set(x, y, computePixel(gx, gy, numOfSamples))`
for every iteration. -/
def renderPiece {S : Type} [Inhabited S] (computePixel : Int → Int → Int → Color S)
    (mySizeX mySizeY rank numOfSamples : Int) : Image S :=
  (renderOps mySizeX mySizeY rank).foldl
    (fun piece op => piece.set op.x op.y (computePixel op.gx op.gy numOfSamples))
    (Image.create mySizeX mySizeY)

/-- Events of the compute loop. -/
def renderEvents {T : Type} (mySizeX mySizeY rank numOfSamples : Int) : List (Event T) :=
  (renderOps mySizeX mySizeY rank).flatMap fun op =>
    [Event.computePixel op.gx op.gy numOfSamples, Event.pieceSet op.x op.y]

/-- The copy loop for one received piece: `finalImage.set(gx, gy, srcPiece.get(x, y))`. -/
def copyPiece {S : Type} [Inhabited S] (mySizeX mySizeY src_rank : Int)
    (srcPiece finalImage : Image S) : Image S :=
  (copyOps mySizeX mySizeY src_rank).foldl
    (fun fin op => fin.set op.gx op.gy (srcPiece.get op.x op.y)) finalImage

/-- Events of the copy loop for one received piece. -/
def copyEvents {T : Type} (mySizeX mySizeY src_rank : Int) : List (Event T) :=
  (copyOps mySizeX mySizeY src_rank).flatMap fun op =>
    [Event.srcGet op.x op.y, Event.finalSet op.gx op.gy]

/-! ## The gather loop of the coordinator -/

/-- State of the coordinator inside `if (rank == 0)`: the image being assembled, the
events so far, and whether a receive failed. -/
structure Gather (S T : Type) where
  finalImage : Image S
  trace : List (Event T)
  failed : Bool

/-- One iteration of `for (src_rank = 0; src_rank < size; src_rank++)` (lines 109-124). -/
def gatherStep {S T : Type} [Inhabited S] (mySizeX mySizeY : Int) (inbox : Int → List S)
    (st : Gather S T) (src_rank : Int) : Gather S T :=
  if st.failed then st
  else
    let srcSizeX := mySizeX
    let srcSizeY := mySizeY
    let count := srcSizeX * srcSizeY * 3
    let tr := st.trace ++ [Event.allocSrc srcSizeX srcSizeY, Event.recv count src_rank]
    match mpiRecv (Image.create srcSizeX srcSizeY) count (inbox src_rank) with
    | none => ⟨st.finalImage, tr, true⟩
    | some srcPiece =>
      ⟨copyPiece mySizeX mySizeY src_rank srcPiece st.finalImage,
        tr ++ copyEvents mySizeX mySizeY src_rank, false⟩

/-- The whole gather loop, from a fresh `finalImage`. -/
def gather {S T : Type} [Inhabited S] (viewPlaneResolutionX viewPlaneResolutionY : Int)
    (mySizeX mySizeY size : Int) (inbox : Int → List S) : Gather S T :=
  (loopRange size).foldl (gatherStep mySizeX mySizeY inbox)
    ⟨Image.create viewPlaneResolutionX viewPlaneResolutionY,
      [Event.allocFinal viewPlaneResolutionX viewPlaneResolutionY], false⟩

/-! ## One process -/

/-- How a process ends. -/
inductive Outcome where
  | finished
  | stoiThrew (e : StoiError)
  | recvFailed
deriving DecidableEq

/-- What one process did. `saved` is the image handed to `saveJPEG`, if any. -/
structure RunResult (S T : Type) where
  trace : List (Event T)
  outcome : Outcome
  myPiece : Option (Image S)
  saved : Option (Image S)

/-- What a process takes from outside: the renderer, its measured duration
`after - before`, the result of the reduction (read at the root only) and, for the root,
the message arriving from each source. -/
structure Env (S T : Type) where
  computePixel : Int → Int → Int → Color S
  time : T
  max_exc : T
  inbox : Int → List S

/-- The name passed to `saveJPEG`. -/
def outputName (size : Int) : String :=
  "raytracing_" ++ toString size ++ ".jpg"

/-- Lines 53-133 of `main`, after the command line has been read. -/
def runProcess {S T : Type} [Inhabited S] (env : Env S T) (a : Args) (size rank : Int) :
    RunResult S T :=
  let mySizeX := a.viewPlaneResolutionX.tdiv size
  let mySizeY := a.viewPlaneResolutionY
  let myPiece := renderPiece env.computePixel mySizeX mySizeY rank a.numOfSamples
  let pre : List (Event T) :=
    [Event.mpiInit, Event.setupScene a.sceneFile, Event.allocPiece mySizeX mySizeY]
      ++ renderEvents mySizeX mySizeY rank a.numOfSamples
      ++ [Event.printRankTime rank env.time, Event.reduceMax env.time]
      ++ (if rank = 0 then [Event.printMaxTime env.max_exc] else [])
      ++ [Event.isend (mySizeX * mySizeY * 3) 0]
  if rank = 0 then
    let g : Gather S T :=
      gather a.viewPlaneResolutionX a.viewPlaneResolutionY mySizeX mySizeY size env.inbox
    if g.failed then
      ⟨pre ++ g.trace, Outcome.recvFailed, some myPiece, none⟩
    else
      ⟨pre ++ g.trace ++ [Event.saveJPEG (outputName size), Event.mpiWait, Event.mpiFinalize],
        Outcome.finished, some myPiece, some g.finalImage⟩
  else
    ⟨pre ++ [Event.mpiWait, Event.mpiFinalize], Outcome.finished, some myPiece, none⟩

/-- The message process `rank` sends to the coordinator (line 104). -/
def sentMessage {S : Type} [Inhabited S] (computePixel : Int → Int → Int → Color S)
    (a : Args) (size rank : Int) : List S :=
  let mySizeX := a.viewPlaneResolutionX.tdiv size
  let mySizeY := a.viewPlaneResolutionY
  mpiPayload (renderPiece computePixel mySizeX mySizeY rank a.numOfSamples).getData
    (mySizeX * mySizeY * 3)

/-- The environment of process `rank` in a group of `size` processes that all run `main`
on the same arguments, with renderer `computePixel` and local durations `time`. -/
def groupEnv {S T : Type} [Inhabited S] [LinearOrder T]
    (computePixel : Int → Int → Int → Color S) (time : Int → T) (a : Args)
    (size rank : Int) : Env S T :=
  ⟨computePixel, time rank, mpiReduceMax time size, fun src => sentMessage computePixel a size src⟩

/-- Process `rank` of the group. -/
def groupProcess {S T : Type} [Inhabited S] [LinearOrder T]
    (computePixel : Int → Int → Int → Color S) (time : Int → T) (a : Args)
    (size rank : Int) : RunResult S T :=
  runProcess (groupEnv computePixel time a size rank) a size rank

/-- The image coordinate an event passes to the renderer. -/
def Event.computedAt {T : Type} : Event T → Option (Int × Int)
  | Event.computePixel gx gy _ => some (gx, gy)
  | _ => none

/-- The coordinate of the final image an event writes. -/
def Event.writtenAt {T : Type} : Event T → Option (Int × Int)
  | Event.finalSet gx gy => some (gx, gy)
  | _ => none

/-- The tile coordinate an event writes (`myPiece.set`) or reads (`srcPiece.get`). -/
def Event.tileAt {T : Type} : Event T → Option (Int × Int)
  | Event.pieceSet x y => some (x, y)
  | Event.srcGet x y => some (x, y)
  | _ => none

/-- The source and the count of a receive. -/
def Event.receivedFrom {T : Type} : Event T → Option (Int × Int)
  | Event.recv count src => some (src, count)
  | _ => none

/-- The file name of a save. -/
def Event.savedName {T : Type} : Event T → Option String
  | Event.saveJPEG name => some name
  | _ => none

/-- The rank and duration of a `Rank: .. Time: ..` line. -/
def Event.reportedTime {T : Type} : Event T → Option (Int × T)
  | Event.printRankTime rank time => some (rank, time)
  | _ => none

/-- The value of a `Max Time:` line. -/
def Event.reportedMax {T : Type} : Event T → Option T
  | Event.printMaxTime max_exc => some max_exc
  | _ => none

/-- Whether an event creates, writes or saves the final image. -/
def Event.usesFinalImage {T : Type} : Event T → Bool
  | Event.allocFinal _ _ => true
  | Event.finalSet _ _ => true
  | Event.saveJPEG _ => true
  | _ => false

/-- Image coordinates passed to the renderer along a trace, in order. -/
def rendered {T : Type} (trace : List (Event T)) : List (Int × Int) :=
  trace.filterMap Event.computedAt

/-- Coordinates of the final image written along a trace, in order. -/
def written {T : Type} (trace : List (Event T)) : List (Int × Int) :=
  trace.filterMap Event.writtenAt

/-- Tile coordinates used along a trace, in order. -/
def tileAccesses {T : Type} (trace : List (Event T)) : List (Int × Int) :=
  trace.filterMap Event.tileAt

/-- Sources and counts of the receives along a trace, in order. -/
def receives {T : Type} (trace : List (Event T)) : List (Int × Int) :=
  trace.filterMap Event.receivedFrom

/-- File names of the saves along a trace, in order. -/
def saves {T : Type} (trace : List (Event T)) : List String :=
  trace.filterMap Event.savedName

/-- The `Rank: .. Time: ..` lines along a trace, in order. -/
def timeReports {T : Type} (trace : List (Event T)) : List (Int × T) :=
  trace.filterMap Event.reportedTime

/-- The `Max Time:` lines along a trace, in order. -/
def maxReports {T : Type} (trace : List (Event T)) : List T :=
  trace.filterMap Event.reportedMax

/-! ## The run of a group, written out -/

/-- The piece the coordinator holds after a successful receive of `msg`. -/
def receivedPiece {S : Type} [Inhabited S] (mySizeX mySizeY : Int) (msg : List S) : Image S :=
  { (Image.create mySizeX mySizeY : Image S) with
    data := unpack (msg ++ (Image.create mySizeX mySizeY : Image S).getData.drop msg.length) }

/-- Events of one iteration of the gather loop. -/
def gatherEvents {T : Type} (mySizeX mySizeY src_rank : Int) : List (Event T) :=
  [Event.allocSrc mySizeX mySizeY, Event.recv (mySizeX * mySizeY * 3) src_rank]
    ++ copyEvents mySizeX mySizeY src_rank

/-- The image the coordinator assembles from the messages of the group. -/
def assembledImage {S : Type} [Inhabited S] (computePixel : Int → Int → Int → Color S)
    (a : Args) (size : Int) : Image S :=
  (loopRange size).foldl (fun fin src =>
      copyPiece (a.viewPlaneResolutionX.tdiv size) a.viewPlaneResolutionY src
        (receivedPiece (a.viewPlaneResolutionX.tdiv size) a.viewPlaneResolutionY
          (sentMessage computePixel a size src)) fin)
    (Image.create a.viewPlaneResolutionX a.viewPlaneResolutionY)

/-- Events of a process up to and including its send. -/
def openingEvents {T : Type} [LinearOrder T] (time : Int → T) (a : Args) (size rank : Int) :
    List (Event T) :=
  [Event.mpiInit, Event.setupScene a.sceneFile,
      Event.allocPiece (a.viewPlaneResolutionX.tdiv size) a.viewPlaneResolutionY]
    ++ renderEvents (a.viewPlaneResolutionX.tdiv size) a.viewPlaneResolutionY rank a.numOfSamples
    ++ [Event.printRankTime rank (time rank), Event.reduceMax (time rank)]
    ++ (if rank = 0 then [Event.printMaxTime (mpiReduceMax time size)] else [])
    ++ [Event.isend (a.viewPlaneResolutionX.tdiv size * a.viewPlaneResolutionY * 3) 0]

/-! # Lemmas -/

/-! ## Loops and pixel operations -/

theorem mem_loopRange {n x : Int} : x ∈ loopRange n ↔ 0 ≤ x ∧ x < n := by
  unfold loopRange
  simp only [List.mem_map, List.mem_range]
  constructor
  · rintro ⟨k, hk, rfl⟩
    have : (Int.ofNat k) = (k : Int) := rfl
    omega
  · rintro ⟨h0, hn⟩
    refine ⟨x.toNat, by omega, ?_⟩
    have : (Int.ofNat x.toNat) = (x.toNat : Int) := rfl
    omega

theorem loopRange_nodup (n : Int) : (loopRange n).Nodup := by
  unfold loopRange
  refine List.Nodup.map ?_ (List.nodup_range _)
  intro a b h
  exact Int.ofNat.inj h

theorem copyOps_eq_renderOps (mySizeX mySizeY src_rank : Int) :
    copyOps mySizeX mySizeY src_rank = renderOps mySizeX mySizeY src_rank := by
  unfold copyOps renderOps
  simp only [mul_comm]

theorem mem_renderOps {q h r : Int} {op : PixelOp} :
    op ∈ renderOps q h r ↔
      (0 ≤ op.x ∧ op.x < q) ∧ (0 ≤ op.y ∧ op.y < h) ∧ op.gx = op.x + q * r ∧ op.gy = op.y := by
  unfold renderOps
  simp only [List.mem_flatMap, List.mem_map, mem_loopRange]
  constructor
  · rintro ⟨x, hx, y, hy, rfl⟩
    exact ⟨hx, hy, rfl, rfl⟩
  · rintro ⟨hx, hy, hgx, hgy⟩
    refine ⟨op.x, hx, op.y, hy, ?_⟩
    cases op
    simp_all

theorem renderOps_nodup (q h r : Int) : (renderOps q h r).Nodup := by
  unfold renderOps
  rw [List.nodup_flatMap]
  constructor
  · intro x _
    refine List.Nodup.map ?_ (loopRange_nodup h)
    intro a b hab
    simpa using congrArg PixelOp.y hab
  · refine List.Pairwise.imp_of_mem ?_ (loopRange_nodup q)
    intro a b _ _ hab
    simp only [Function.onFun]
    intro op h1 h2
    simp only [List.mem_map] at h1 h2
    obtain ⟨_, _, rfl⟩ := h1
    obtain ⟨_, _, h2⟩ := h2
    exact hab (congrArg PixelOp.x h2).symm

theorem tdiv_facts {W N : Int} (hW : 0 ≤ W) (hN : 1 ≤ N) :
    0 ≤ W.tdiv N ∧ N * W.tdiv N ≤ W ∧ W < N * W.tdiv N + N := by
  rw [Int.tdiv_eq_ediv hW (by omega)]
  have h1 := Int.ediv_add_emod W N
  have h2 := Int.emod_nonneg W (show N ≠ 0 by omega)
  have h3 := Int.emod_lt_of_pos W (show 0 < N by omega)
  have h4 : 0 ≤ W / N := Int.ediv_nonneg hW (by omega)
  refine ⟨h4, ?_, ?_⟩ <;> omega

theorem tdiv_mul_of_dvd {W N : Int} (hN : 1 ≤ N) (hdiv : N ∣ W) : N * W.tdiv N = W := by
  obtain ⟨k, rfl⟩ := hdiv
  rw [Int.mul_tdiv_cancel_left _ (by omega)]

/-- A column below `N * q` lies in exactly the strip of one rank. -/
theorem strip_of_column {q N c : Int} (hc0 : 0 ≤ c) (hc : c < N * q) (hq : 0 ≤ q) :
    ∃ r, 0 ≤ r ∧ r < N ∧ 0 ≤ c - q * r ∧ c - q * r < q := by
  have hqpos : 0 < q := by
    rcases eq_or_lt_of_le hq with h | h
    · subst h; simp at hc; omega
    · exact h
  refine ⟨c / q, Int.ediv_nonneg hc0 hq, ?_, ?_, ?_⟩
  · exact Int.ediv_lt_of_lt_mul hqpos hc
  · have := Int.ediv_add_emod c q
    have := Int.emod_nonneg c (show q ≠ 0 by omega)
    omega
  · have := Int.ediv_add_emod c q
    have := Int.emod_lt_of_pos c hqpos
    omega

theorem strip_unique {q x x' : Int} (r r' : Int) (hx : 0 ≤ x ∧ x < q) (hx' : 0 ≤ x' ∧ x' < q)
    (h : x + q * r = x' + q * r') : r = r' ∧ x = x' := by
  have hq : 0 < q := by omega
  rcases lt_trichotomy r r' with hlt | heq | hgt
  · exfalso
    have : q * (r + 1) ≤ q * r' := mul_le_mul_of_nonneg_left (by omega) hq.le
    rw [mul_add, mul_one] at this
    omega
  · subst heq
    exact ⟨rfl, by omega⟩
  · exfalso
    have : q * (r' + 1) ≤ q * r := mul_le_mul_of_nonneg_left (by omega) hq.le
    rw [mul_add, mul_one] at this
    omega

theorem strip_inside {q N W r x : Int} (hq : 0 ≤ q) (hNq : N * q ≤ W) (hr : 0 ≤ r ∧ r < N)
    (hx : 0 ≤ x ∧ x < q) : 0 ≤ x + q * r ∧ x + q * r < N * q ∧ x + q * r < W := by
  have h1 : 0 ≤ q * r := mul_nonneg hq hr.1
  have h2 : q * (r + 1) ≤ q * N := mul_le_mul_of_nonneg_left (by omega) hq
  rw [mul_add, mul_one] at h2
  have h3 : q * N = N * q := mul_comm _ _
  omega

/-! ## The gather loop never fails inside a group -/

theorem gatherStep_ok {S T : Type} [Inhabited S] (mySizeX mySizeY : Int) (inbox : Int → List S)
    (st : Gather S T) (src_rank : Int) (hst : st.failed = false)
    (hmsg : (inbox src_rank).length ≤ (mySizeX * mySizeY * 3).toNat) :
    gatherStep mySizeX mySizeY inbox st src_rank =
      ⟨copyPiece mySizeX mySizeY src_rank (receivedPiece mySizeX mySizeY (inbox src_rank))
          st.finalImage,
        st.trace ++ gatherEvents mySizeX mySizeY src_rank, false⟩ := by
  unfold gatherStep
  simp only [hst, Bool.false_eq_true, if_false, mpiRecv, hmsg, if_true, gatherEvents,
    receivedPiece, List.append_assoc]

theorem foldl_gatherStep_ok {S T : Type} [Inhabited S] (mySizeX mySizeY : Int)
    (inbox : Int → List S) (srcs : List Int)
    (hmsg : ∀ src ∈ srcs, (inbox src).length ≤ (mySizeX * mySizeY * 3).toNat) :
    ∀ st : Gather S T, st.failed = false →
      srcs.foldl (gatherStep mySizeX mySizeY inbox) st =
        ⟨srcs.foldl (fun fin src =>
            copyPiece mySizeX mySizeY src (receivedPiece mySizeX mySizeY (inbox src)) fin)
            st.finalImage,
          st.trace ++ srcs.flatMap (gatherEvents mySizeX mySizeY), false⟩ := by
  induction srcs with
  | nil =>
    intro st hst
    cases st
    simp_all
  | cons src rest ih =>
    intro st hst
    rw [List.foldl_cons, gatherStep_ok mySizeX mySizeY inbox st src hst
      (hmsg src (List.mem_cons_self _ _))]
    rw [ih (fun s hs => hmsg s (List.mem_cons_of_mem _ hs)) _ rfl]
    simp [List.flatMap_cons, List.append_assoc]

theorem length_sentMessage_le {S : Type} [Inhabited S] (computePixel : Int → Int → Int → Color S)
    (a : Args) (size rank : Int) :
    (sentMessage computePixel a size rank).length ≤
      (a.viewPlaneResolutionX.tdiv size * a.viewPlaneResolutionY * 3).toNat := by
  unfold sentMessage mpiPayload
  exact List.length_take_le _ _

theorem gather_group {S T : Type} [Inhabited S]
    (computePixel : Int → Int → Int → Color S) (a : Args) (size : Int) :
    (gather a.viewPlaneResolutionX a.viewPlaneResolutionY
        (a.viewPlaneResolutionX.tdiv size) a.viewPlaneResolutionY size
        (fun src => sentMessage computePixel a size src) : Gather S T) =
      ⟨assembledImage computePixel a size,
        Event.allocFinal a.viewPlaneResolutionX a.viewPlaneResolutionY ::
          (loopRange size).flatMap
            (gatherEvents (a.viewPlaneResolutionX.tdiv size) a.viewPlaneResolutionY),
        false⟩ := by
  unfold gather
  rw [foldl_gatherStep_ok _ _ _ _ (fun src _ => length_sentMessage_le computePixel a size src) _ rfl]
  rfl

theorem groupProcess_root {S T : Type} [Inhabited S] [LinearOrder T]
    (computePixel : Int → Int → Int → Color S) (time : Int → T) (a : Args) (size : Int) :
    (groupProcess computePixel time a size 0 : RunResult S T) =
      ⟨openingEvents time a size 0
          ++ (Event.allocFinal a.viewPlaneResolutionX a.viewPlaneResolutionY ::
            (loopRange size).flatMap
              (gatherEvents (a.viewPlaneResolutionX.tdiv size) a.viewPlaneResolutionY))
          ++ [Event.saveJPEG (outputName size), Event.mpiWait, Event.mpiFinalize],
        Outcome.finished,
        some (renderPiece computePixel (a.viewPlaneResolutionX.tdiv size)
          a.viewPlaneResolutionY 0 a.numOfSamples),
        some (assembledImage computePixel a size)⟩ := by
  unfold groupProcess runProcess groupEnv
  simp only [if_true, gather_group, Bool.false_eq_true, if_false, openingEvents]

theorem groupProcess_worker {S T : Type} [Inhabited S] [LinearOrder T]
    (computePixel : Int → Int → Int → Color S) (time : Int → T) (a : Args) (size rank : Int)
    (hrank : rank ≠ 0) :
    (groupProcess computePixel time a size rank : RunResult S T) =
      ⟨openingEvents time a size rank ++ [Event.mpiWait, Event.mpiFinalize],
        Outcome.finished,
        some (renderPiece computePixel (a.viewPlaneResolutionX.tdiv size)
          a.viewPlaneResolutionY rank a.numOfSamples),
        none⟩ := by
  unfold groupProcess runProcess groupEnv
  simp only [hrank, if_false, openingEvents]

theorem filterMap_flatMap {α β γ : Type} (f : β → Option γ) (g : α → List β) (l : List α) :
    (l.flatMap g).filterMap f = l.flatMap fun a => (g a).filterMap f := by
  induction l with
  | nil => rfl
  | cons a l ih => simp [List.flatMap_cons, List.filterMap_append, ih]

theorem flatMap_nil_of_forall {α β : Type} (g : α → List β) (l : List α) (h : ∀ a, g a = []) :
    l.flatMap g = [] := by
  induction l with
  | nil => rfl
  | cons a l ih => simp [List.flatMap_cons, h, ih]

theorem flatMap_singleton_map {α β : Type} (g : α → β) (l : List α) :
    (l.flatMap fun a => [g a]) = l.map g := by
  induction l with
  | nil => rfl
  | cons a l ih => simp [List.flatMap_cons, ih]

theorem rendered_renderEvents {T : Type} (q h r ns : Int) :
    rendered (renderEvents q h r ns : List (Event T)) =
      (renderOps q h r).map fun op => (op.gx, op.gy) := by
  unfold rendered renderEvents
  rw [filterMap_flatMap]
  simp only [List.filterMap_cons, Event.computedAt, List.filterMap_nil]
  exact flatMap_singleton_map _ _

theorem rendered_gatherEvents {T : Type} (q h src : Int) :
    rendered (gatherEvents q h src : List (Event T)) = [] := by
  unfold rendered gatherEvents copyEvents
  simp only [List.filterMap_append, List.filterMap_cons, Event.computedAt, List.filterMap_nil,
    List.nil_append]
  rw [filterMap_flatMap]
  exact flatMap_nil_of_forall _ _ (fun _ => rfl)

theorem written_renderEvents {T : Type} (q h r ns : Int) :
    written (renderEvents q h r ns : List (Event T)) = [] := by
  unfold written renderEvents
  rw [filterMap_flatMap]
  exact flatMap_nil_of_forall _ _ (fun _ => rfl)

theorem written_gatherEvents {T : Type} (q h src : Int) :
    written (gatherEvents q h src : List (Event T)) =
      (copyOps q h src).map fun op => (op.gx, op.gy) := by
  unfold written gatherEvents copyEvents
  simp only [List.filterMap_append, List.filterMap_cons, Event.writtenAt, List.filterMap_nil,
    List.nil_append]
  rw [filterMap_flatMap]
  simp only [List.filterMap_cons, Event.writtenAt, List.filterMap_nil]
  exact flatMap_singleton_map _ _

theorem rendered_openingEvents {T : Type} [LinearOrder T] (time : Int → T) (a : Args)
    (size rank : Int) :
    rendered (openingEvents time a size rank) =
      (renderOps (a.viewPlaneResolutionX.tdiv size) a.viewPlaneResolutionY rank).map
        fun op => (op.gx, op.gy) := by
  have h := rendered_renderEvents (T := T) (a.viewPlaneResolutionX.tdiv size)
    a.viewPlaneResolutionY rank a.numOfSamples
  unfold rendered at h ⊢
  unfold openingEvents
  simp only [List.filterMap_append, h]
  split <;> simp [Event.computedAt]

theorem written_openingEvents {T : Type} [LinearOrder T] (time : Int → T) (a : Args)
    (size rank : Int) : written (openingEvents time a size rank) = [] := by
  have h := written_renderEvents (T := T) (a.viewPlaneResolutionX.tdiv size)
    a.viewPlaneResolutionY rank a.numOfSamples
  unfold written at h ⊢
  unfold openingEvents
  simp only [List.filterMap_append, h]
  split <;> simp [Event.writtenAt]

/-- What process `rank` of a group passes to the renderer. -/
theorem rendered_groupProcess {S T : Type} [Inhabited S] [LinearOrder T]
    (computePixel : Int → Int → Int → Color S) (time : Int → T) (a : Args) (size rank : Int) :
    rendered (groupProcess computePixel time a size rank).trace =
      (renderOps (a.viewPlaneResolutionX.tdiv size) a.viewPlaneResolutionY rank).map
        fun op => (op.gx, op.gy) := by
  by_cases hrank : rank = 0
  · subst hrank
    rw [groupProcess_root]
    have h1 := rendered_openingEvents time a size 0
    unfold rendered at h1 ⊢
    simp only [List.filterMap_append, h1, List.filterMap_cons, Event.computedAt,
      List.filterMap_nil, List.append_nil]
    rw [filterMap_flatMap]
    have h2 : ∀ src : Int, List.filterMap Event.computedAt
        (gatherEvents (a.viewPlaneResolutionX.tdiv size) a.viewPlaneResolutionY src :
          List (Event T)) = [] := fun src => rendered_gatherEvents _ _ src
    rw [flatMap_nil_of_forall _ _ h2]
    simp
  · rw [groupProcess_worker _ _ _ _ _ hrank]
    have h1 := rendered_openingEvents time a size rank
    unfold rendered at h1 ⊢
    simp only [List.filterMap_append, h1, List.filterMap_cons, Event.computedAt,
      List.filterMap_nil, List.append_nil]

/-- What the coordinator writes in the final image. -/
theorem written_root {S T : Type} [Inhabited S] [LinearOrder T]
    (computePixel : Int → Int → Int → Color S) (time : Int → T) (a : Args) (size : Int) :
    written (groupProcess computePixel time a size 0).trace =
      (loopRange size).flatMap fun src =>
        (copyOps (a.viewPlaneResolutionX.tdiv size) a.viewPlaneResolutionY src).map
          fun op => (op.gx, op.gy) := by
  rw [groupProcess_root]
  have h1 := written_openingEvents time a size 0
  unfold written at h1 ⊢
  simp only [List.filterMap_append, h1, List.filterMap_cons, Event.writtenAt,
    List.filterMap_nil, List.append_nil, List.nil_append]
  rw [filterMap_flatMap]
  congr 1
  funext src
  exact written_gatherEvents _ _ src

theorem written_worker {S T : Type} [Inhabited S] [LinearOrder T]
    (computePixel : Int → Int → Int → Color S) (time : Int → T) (a : Args) (size rank : Int)
    (hrank : rank ≠ 0) :
    written (groupProcess computePixel time a size rank).trace = [] := by
  rw [groupProcess_worker _ _ _ _ _ hrank]
  have h1 := written_openingEvents time a size rank
  unfold written at h1 ⊢
  simp only [List.filterMap_append, h1, List.filterMap_cons, Event.writtenAt,
    List.filterMap_nil, List.append_nil]

/-- Membership in the strip of global coordinates of a rank. -/
theorem mem_strip {q h r gx gy : Int} :
    (gx, gy) ∈ (renderOps q h r).map (fun op => (op.gx, op.gy)) ↔
      (0 ≤ gx - q * r ∧ gx - q * r < q) ∧ (0 ≤ gy ∧ gy < h) := by
  simp only [List.mem_map, mem_renderOps, Prod.mk.injEq]
  constructor
  · rintro ⟨op, ⟨hx, hy, hgx, hgy⟩, rfl, rfl⟩
    refine ⟨?_, ?_⟩
    · omega
    · omega
  · rintro ⟨hx, hy⟩
    exact ⟨⟨gx - q * r, gy, gx, gy⟩, ⟨hx, hy, by simp, rfl⟩, rfl, rfl⟩

theorem strip_nodup (q h r : Int) :
    ((renderOps q h r).map fun op => (op.gx, op.gy)).Nodup := by
  refine List.Nodup.map_on ?_ (renderOps_nodup q h r)
  intro op1 h1 op2 h2 heq
  rw [mem_renderOps] at h1 h2
  simp only [Prod.mk.injEq] at heq
  obtain ⟨hx1, hy1, hgx1, hgy1⟩ := h1
  obtain ⟨hx2, hy2, hgx2, hgy2⟩ := h2
  cases op1
  cases op2
  simp only [PixelOp.mk.injEq] at *
  omega

theorem tileAccesses_renderEvents {T : Type} (q h r ns : Int) :
    tileAccesses (renderEvents q h r ns : List (Event T)) =
      (renderOps q h r).map fun op => (op.x, op.y) := by
  unfold tileAccesses renderEvents
  rw [filterMap_flatMap]
  simp only [List.filterMap_cons, Event.tileAt, List.filterMap_nil]
  exact flatMap_singleton_map _ _

theorem tileAccesses_gatherEvents {T : Type} (q h src : Int) :
    tileAccesses (gatherEvents q h src : List (Event T)) =
      (copyOps q h src).map fun op => (op.x, op.y) := by
  unfold tileAccesses gatherEvents copyEvents
  simp only [List.filterMap_append, List.filterMap_cons, Event.tileAt, List.filterMap_nil,
    List.nil_append]
  rw [filterMap_flatMap]
  simp only [List.filterMap_cons, Event.tileAt, List.filterMap_nil]
  exact flatMap_singleton_map _ _

theorem tileAccesses_openingEvents {T : Type} [LinearOrder T] (time : Int → T) (a : Args)
    (size rank : Int) :
    tileAccesses (openingEvents time a size rank) =
      (renderOps (a.viewPlaneResolutionX.tdiv size) a.viewPlaneResolutionY rank).map
        fun op => (op.x, op.y) := by
  have h := tileAccesses_renderEvents (T := T) (a.viewPlaneResolutionX.tdiv size)
    a.viewPlaneResolutionY rank a.numOfSamples
  unfold tileAccesses at h ⊢
  unfold openingEvents
  simp only [List.filterMap_append, h]
  split <;> simp [Event.tileAt]

/-- Every tile coordinate a process of the group uses is a coordinate of the tile. -/
theorem tileAccesses_inside {S T : Type} [Inhabited S] [LinearOrder T]
    (computePixel : Int → Int → Int → Color S) (time : Int → T) (a : Args) (size rank : Int)
    (p : Int × Int) (hp : p ∈ tileAccesses (groupProcess computePixel time a size rank).trace) :
    (0 ≤ p.1 ∧ p.1 < a.viewPlaneResolutionX.tdiv size) ∧
      (0 ≤ p.2 ∧ p.2 < a.viewPlaneResolutionY) := by
  have hpre := tileAccesses_openingEvents time a size rank
  have key : ∀ r : Int, p ∈ (renderOps (a.viewPlaneResolutionX.tdiv size)
      a.viewPlaneResolutionY r).map (fun op => (op.x, op.y)) →
      (0 ≤ p.1 ∧ p.1 < a.viewPlaneResolutionX.tdiv size) ∧
        (0 ≤ p.2 ∧ p.2 < a.viewPlaneResolutionY) := by
    intro r hr
    simp only [List.mem_map, mem_renderOps] at hr
    obtain ⟨op, ⟨hx, hy, _, _⟩, rfl⟩ := hr
    exact ⟨hx, hy⟩
  by_cases hrank : rank = 0
  · subst hrank
    rw [groupProcess_root] at hp
    unfold tileAccesses at hpre hp
    simp only [List.filterMap_append, hpre, List.filterMap_cons, Event.tileAt,
      List.filterMap_nil, List.append_nil, List.mem_append] at hp
    rcases hp with hp | hp
    · exact key 0 hp
    · rw [filterMap_flatMap, List.mem_flatMap] at hp
      obtain ⟨src, _, hsrc⟩ := hp
      have h2 := tileAccesses_gatherEvents (T := T) (a.viewPlaneResolutionX.tdiv size)
        a.viewPlaneResolutionY src
      unfold tileAccesses at h2
      rw [h2, copyOps_eq_renderOps] at hsrc
      exact key src hsrc
  · rw [groupProcess_worker _ _ _ _ _ hrank] at hp
    unfold tileAccesses at hpre hp
    simp only [List.filterMap_append, hpre, List.filterMap_cons, Event.tileAt,
      List.filterMap_nil, List.append_nil] at hp
    exact key rank hp

theorem countP_eq_one_of_mem {α : Type} [DecidableEq α] {a : α} {l : List α}
    (hd : l.Nodup) (h : a ∈ l) : l.countP (fun p => decide (p = a)) = 1 := by
  have h1 := List.count_eq_one_of_mem hd h
  rw [← h1]
  rfl

theorem countP_eq_zero_of_not_mem {α : Type} [DecidableEq α] {a : α} {l : List α}
    (h : a ∉ l) : l.countP (fun p => decide (p = a)) = 0 := by
  rw [List.countP_eq_zero]
  intro p hp
  simp only [decide_eq_true_eq]
  rintro rfl
  exact h hp

/-- The coordinates written during assembly are pairwise distinct. -/
theorem assembly_nodup (q h N : Int) :
    ((loopRange N).flatMap fun src => (copyOps q h src).map fun op => (op.gx, op.gy)).Nodup := by
  rw [List.nodup_flatMap]
  constructor
  · intro src _
    rw [copyOps_eq_renderOps]
    exact strip_nodup q h src
  · refine List.Pairwise.imp_of_mem ?_ (loopRange_nodup N)
    intro s s' _ _ hne
    simp only [Function.onFun]
    rintro ⟨gx, gy⟩ h1 h2
    rw [copyOps_eq_renderOps, mem_strip] at h1 h2
    have := strip_unique s s' h1.1 h2.1 (by ring)
    exact hne this.1

/-! ## Images -/

namespace Image

variable {S : Type}

end Image

theorem filterMap_renderEvents_nil {T β : Type} (f : Event T → Option β)
    (h1 : ∀ gx gy ns, f (Event.computePixel gx gy ns) = none)
    (h2 : ∀ x y, f (Event.pieceSet x y) = none) (q h r ns : Int) :
    (renderEvents q h r ns : List (Event T)).filterMap f = [] := by
  unfold renderEvents
  rw [filterMap_flatMap]
  apply flatMap_nil_of_forall
  intro op
  simp [h1, h2]

theorem filterMap_copyEvents_nil {T β : Type} (f : Event T → Option β)
    (h1 : ∀ x y, f (Event.srcGet x y) = none)
    (h2 : ∀ gx gy, f (Event.finalSet gx gy) = none) (q h src : Int) :
    (copyEvents q h src : List (Event T)).filterMap f = [] := by
  unfold copyEvents
  rw [filterMap_flatMap]
  apply flatMap_nil_of_forall
  intro op
  simp [h1, h2]

theorem receives_openingEvents {T : Type} [LinearOrder T] (time : Int → T) (a : Args)
    (size rank : Int) : receives (openingEvents time a size rank) = [] := by
  unfold receives openingEvents
  simp only [List.filterMap_append,
    filterMap_renderEvents_nil Event.receivedFrom (fun _ _ _ => rfl) (fun _ _ => rfl)]
  split <;> simp [Event.receivedFrom]

theorem saves_openingEvents {T : Type} [LinearOrder T] (time : Int → T) (a : Args)
    (size rank : Int) : saves (openingEvents time a size rank) = [] := by
  unfold saves openingEvents
  simp only [List.filterMap_append,
    filterMap_renderEvents_nil Event.savedName (fun _ _ _ => rfl) (fun _ _ => rfl)]
  split <;> simp [Event.savedName]

theorem saves_gatherEvents {T : Type} (q h src : Int) :
    saves (gatherEvents q h src : List (Event T)) = [] := by
  unfold saves gatherEvents
  simp only [List.filterMap_append, List.filterMap_cons, Event.savedName,
    List.filterMap_nil,
    filterMap_copyEvents_nil Event.savedName (fun _ _ => rfl) (fun _ _ => rfl)]
  rfl

theorem timeReports_groupProcess {S T : Type} [Inhabited S] [LinearOrder T]
    (computePixel : Int → Int → Int → Color S) (time : Int → T) (a : Args) (size rank : Int) :
    timeReports (groupProcess computePixel time a size rank).trace = [(rank, time rank)] := by
  have hpre : timeReports (openingEvents time a size rank) = [(rank, time rank)] := by
    unfold timeReports openingEvents
    simp only [List.filterMap_append,
      filterMap_renderEvents_nil Event.reportedTime (fun _ _ _ => rfl) (fun _ _ => rfl)]
    split <;> simp [Event.reportedTime]
  unfold timeReports at hpre ⊢
  by_cases hrank : rank = 0
  · subst hrank
    rw [groupProcess_root]
    simp only [List.filterMap_append, hpre, List.filterMap_cons, Event.reportedTime,
      List.filterMap_nil, List.append_nil]
    rw [filterMap_flatMap, flatMap_nil_of_forall]
    · simp
    · intro src
      unfold gatherEvents
      simp only [List.filterMap_append, List.filterMap_cons, Event.reportedTime,
        List.filterMap_nil, List.nil_append]
      exact filterMap_copyEvents_nil Event.reportedTime (fun _ _ => rfl) (fun _ _ => rfl) _ _ _
  · rw [groupProcess_worker _ _ _ _ _ hrank]
    simp only [List.filterMap_append, hpre, List.filterMap_cons, Event.reportedTime,
      List.filterMap_nil, List.append_nil]

theorem maxReports_groupProcess {S T : Type} [Inhabited S] [LinearOrder T]
    (computePixel : Int → Int → Int → Color S) (time : Int → T) (a : Args) (size rank : Int) :
    maxReports (groupProcess computePixel time a size rank).trace =
      if rank = 0 then [mpiReduceMax time size] else [] := by
  have hpre : maxReports (openingEvents time a size rank) =
      if rank = 0 then [mpiReduceMax time size] else [] := by
    unfold maxReports openingEvents
    simp only [List.filterMap_append,
      filterMap_renderEvents_nil Event.reportedMax (fun _ _ _ => rfl) (fun _ _ => rfl)]
    split <;> simp [Event.reportedMax]
  unfold maxReports at hpre ⊢
  by_cases hrank : rank = 0
  · subst hrank
    rw [groupProcess_root]
    simp only [List.filterMap_append, hpre, List.filterMap_cons, Event.reportedMax,
      List.filterMap_nil, List.append_nil]
    rw [filterMap_flatMap, flatMap_nil_of_forall]
    · simp
    · intro src
      unfold gatherEvents
      simp only [List.filterMap_append, List.filterMap_cons, Event.reportedMax,
        List.filterMap_nil, List.nil_append]
      exact filterMap_copyEvents_nil Event.reportedMax (fun _ _ => rfl) (fun _ _ => rfl) _ _ _
  · rw [groupProcess_worker _ _ _ _ _ hrank]
    simp only [List.filterMap_append, hpre, List.filterMap_cons, Event.reportedMax,
      List.filterMap_nil, List.append_nil]

/-! ## The reduction -/

theorem foldl_max_spec {T : Type} [LinearOrder T] (time : Int → T) (l : List Int) :
    ∀ init : T,
      (l.foldl (fun acc r => max acc (time r)) init = init ∨
        ∃ r ∈ l, l.foldl (fun acc r => max acc (time r)) init = time r) ∧
      init ≤ l.foldl (fun acc r => max acc (time r)) init ∧
      ∀ r ∈ l, time r ≤ l.foldl (fun acc r => max acc (time r)) init := by
  induction l with
  | nil =>
    intro init
    simp
  | cons a l ih =>
    intro init
    obtain ⟨h1, h2, h3⟩ := ih (max init (time a))
    simp only [List.foldl_cons]
    refine ⟨?_, le_trans (le_max_left _ _) h2, ?_⟩
    · rcases h1 with h | ⟨r, hr, h⟩
      · rcases max_choice init (time a) with hm | hm
        · left
          rw [h, hm]
        · right
          exact ⟨a, List.mem_cons_self _ _, by rw [h, hm]⟩
      · right
        exact ⟨r, List.mem_cons_of_mem _ hr, h⟩
    · intro r hr
      rcases List.mem_cons.mp hr with rfl | hr'
      · exact le_trans (le_max_right _ _) h2
      · exact h3 r hr'

/-- The reduced value is the duration of some rank and bounds the duration of every rank. -/
theorem mpiReduceMax_spec {T : Type} [LinearOrder T] (time : Int → T) (size : Int)
    (hsize : 1 ≤ size) :
    (∃ r, 0 ≤ r ∧ r < size ∧ mpiReduceMax time size = time r) ∧
      ∀ r, 0 ≤ r → r < size → time r ≤ mpiReduceMax time size := by
  obtain ⟨h1, _, h3⟩ := foldl_max_spec time (loopRange size) (time 0)
  unfold mpiReduceMax
  refine ⟨?_, ?_⟩
  · rcases h1 with h | ⟨r, hr, h⟩
    · exact ⟨0, le_refl 0, by omega, h⟩
    · rw [mem_loopRange] at hr
      exact ⟨r, hr.1, hr.2, h⟩
  · intro r hr0 hr1
    exact h3 r (mem_loopRange.mpr ⟨hr0, hr1⟩)

/-! ## Command line failures -/

/-- C1: when `N ≥ 1` divides the width `W ≥ 0`, process `r` passes to the renderer exactly the
pixels of columns `[r*(W/N), (r+1)*(W/N))` and rows `[0,H)`; the regions of two different
processes share no pixel; a pixel is rendered by some process exactly when it lies in
`[0,W) × [0,H)`; and every pixel of the image is rendered once by one process and by no
other. -/
theorem c1_regions_partition_image {S T : Type} [Inhabited S] [LinearOrder T]
    (computePixel : Int → Int → Int → Color S) (time : Int → T)
    (W H N numOfSamples : Int) (sceneFile : String)
    (hW : 0 ≤ W) (hN : 1 ≤ N) (hdiv : N ∣ W) :
    (∀ r, 0 ≤ r → r < N → ∀ gx gy,
        (gx, gy) ∈ rendered
            (groupProcess computePixel time ⟨W, H, numOfSamples, sceneFile⟩ N r).trace ↔
          (r * (W / N) ≤ gx ∧ gx < (r + 1) * (W / N)) ∧ (0 ≤ gy ∧ gy < H)) ∧
    (∀ r r', 0 ≤ r → r < N → 0 ≤ r' → r' < N → r ≠ r' →
        ∀ p ∈ rendered
            (groupProcess computePixel time ⟨W, H, numOfSamples, sceneFile⟩ N r).trace,
          p ∉ rendered
            (groupProcess computePixel time ⟨W, H, numOfSamples, sceneFile⟩ N r').trace) ∧
    (∀ gx gy,
        (∃ r, 0 ≤ r ∧ r < N ∧ (gx, gy) ∈ rendered
            (groupProcess computePixel time ⟨W, H, numOfSamples, sceneFile⟩ N r).trace) ↔
          (0 ≤ gx ∧ gx < W) ∧ (0 ≤ gy ∧ gy < H)) ∧
    (∀ gx gy, 0 ≤ gx → gx < W → 0 ≤ gy → gy < H →
        ∃ r, 0 ≤ r ∧ r < N ∧
          (rendered
            (groupProcess computePixel time ⟨W, H, numOfSamples, sceneFile⟩ N r).trace).countP
              (fun p => p = (gx, gy)) = 1 ∧
          ∀ r', 0 ≤ r' → r' < N → r' ≠ r →
            (rendered
              (groupProcess computePixel time ⟨W, H, numOfSamples, sceneFile⟩ N r').trace).countP
                (fun p => p = (gx, gy)) = 0) := by
  have hq := tdiv_facts hW hN
  have hNq := tdiv_mul_of_dvd hN hdiv
  have hdivq : W / N = W.tdiv N := (Int.tdiv_eq_ediv hW (by omega)).symm
  simp only [rendered_groupProcess, hdivq]
  generalize W.tdiv N = q at hq hNq
  have hdisj : ∀ r r' gx gy,
      (gx, gy) ∈ (renderOps q H r).map (fun op => (op.gx, op.gy)) →
      (gx, gy) ∈ (renderOps q H r').map (fun op => (op.gx, op.gy)) → r = r' := by
    intro r r' gx gy h1 h2
    rw [mem_strip] at h1 h2
    exact (strip_unique r r' h1.1 h2.1 (by ring)).1
  have hcover : ∀ gx gy, 0 ≤ gx → gx < W → 0 ≤ gy → gy < H →
      ∃ r, 0 ≤ r ∧ r < N ∧ (gx, gy) ∈ (renderOps q H r).map (fun op => (op.gx, op.gy)) := by
    intro gx gy h0 h1 h2 h3
    obtain ⟨r, hr0, hrN, hx0, hx1⟩ := strip_of_column (N := N) h0 (by omega) hq.1
    exact ⟨r, hr0, hrN, mem_strip.mpr ⟨⟨hx0, hx1⟩, h2, h3⟩⟩
  refine ⟨?_, ?_, ?_, ?_⟩
  · intro r _ _ gx gy
    rw [mem_strip]
    have : r * q = q * r := mul_comm _ _
    have : (r + 1) * q = q * r + q := by ring
    constructor
    · rintro ⟨hx, hy⟩
      exact ⟨by omega, hy⟩
    · rintro ⟨hx, hy⟩
      exact ⟨by omega, hy⟩
  · rintro r r' _ _ _ _ hne ⟨gx, gy⟩ h1 h2
    exact hne (hdisj r r' gx gy h1 h2)
  · intro gx gy
    constructor
    · rintro ⟨r, hr0, hrN, hmem⟩
      rw [mem_strip] at hmem
      have := strip_inside hq.1 hq.2.1 ⟨hr0, hrN⟩ hmem.1
      exact ⟨by omega, hmem.2⟩
    · rintro ⟨⟨h0, h1⟩, h2, h3⟩
      exact hcover gx gy h0 h1 h2 h3
  · intro gx gy h0 h1 h2 h3
    obtain ⟨r, hr0, hrN, hmem⟩ := hcover gx gy h0 h1 h2 h3
    refine ⟨r, hr0, hrN, countP_eq_one_of_mem (strip_nodup q H r) hmem, ?_⟩
    intro r' _ _ hne
    refine countP_eq_zero_of_not_mem ?_
    intro hmem'
    exact hne (hdisj r' r gx gy hmem' hmem)

/-- Witness of C1 on the spec scenario `W = 4`, `H = 2`, `N = 2`: pixel `(3, 1)` is rendered
by process 1 and process 0 renders columns 0 and 1 only. -/
theorem c1_regions_partition_image_witness :
    (0 : Int) ≤ 4 ∧ (1 : Int) ≤ 2 ∧ (2 : Int) ∣ 4 ∧
      ((3, 1) ∈ rendered
          (groupProcess (S := Int) (T := Nat) (fun x y _ => ⟨x, y, 0⟩) (fun r => r.toNat)
            ⟨4, 2, 1, ""⟩ 2 1).trace ↔
        (1 * (4 / 2) ≤ (3 : Int) ∧ (3 : Int) < (1 + 1) * (4 / 2)) ∧ ((0 : Int) ≤ 1 ∧ (1 : Int) < 2)) :=
  ⟨by decide, by decide, ⟨2, rfl⟩,
    (c1_regions_partition_image (S := Int) (T := Nat) (fun x y _ => ⟨x, y, 0⟩)
      (fun r => r.toNat) 4 2 2 1 "" (by decide) (by decide) ⟨2, rfl⟩).1 1 (by decide)
        (by decide) 3 1⟩

/-- C9: for `W ≥ 0`, `H ≥ 1`, `N ≥ 1` the columns some process renders, and the columns the
coordinator writes into the final image, are exactly `[0, N*(W/N)) = [0, W - W mod N)`; the
trailing `W mod N` columns are rendered by no process and written by none; and when `N > W`
no process renders any pixel. -/
theorem c9_columns_covered {S T : Type} [Inhabited S] [LinearOrder T]
    (computePixel : Int → Int → Int → Color S) (time : Int → T)
    (W H N numOfSamples : Int) (sceneFile : String)
    (hW : 0 ≤ W) (hH : 1 ≤ H) (hN : 1 ≤ N) :
    (∀ c, (∃ r gy, 0 ≤ r ∧ r < N ∧ (c, gy) ∈ rendered
            (groupProcess computePixel time ⟨W, H, numOfSamples, sceneFile⟩ N r).trace) ↔
          0 ≤ c ∧ c < N * (W / N)) ∧
    (∀ c, (∃ gy, (c, gy) ∈ written
            (groupProcess computePixel time ⟨W, H, numOfSamples, sceneFile⟩ N 0).trace) ↔
          0 ≤ c ∧ c < N * (W / N)) ∧
    N * (W / N) = W - W % N ∧
    (∀ c gy r, W - W % N ≤ c → c < W → 0 ≤ r → r < N →
        (c, gy) ∉ rendered
            (groupProcess computePixel time ⟨W, H, numOfSamples, sceneFile⟩ N r).trace ∧
        (c, gy) ∉ written
            (groupProcess computePixel time ⟨W, H, numOfSamples, sceneFile⟩ N r).trace) ∧
    (W < N → ∀ r, 0 ≤ r → r < N →
        rendered (groupProcess computePixel time ⟨W, H, numOfSamples, sceneFile⟩ N r).trace
          = []) := by
  have hq := tdiv_facts hW hN
  have hdivq : W / N = W.tdiv N := (Int.tdiv_eq_ediv hW (by omega)).symm
  have hmod : N * (W / N) = W - W % N := by
    have := Int.ediv_add_emod W N
    omega
  rw [← hmod]
  simp only [rendered_groupProcess, written_root, hdivq]
  rw [hdivq] at hmod
  obtain ⟨q, hqdef⟩ : ∃ q, q = W.tdiv N := ⟨_, rfl⟩
  simp only [← hqdef] at hq hmod ⊢
  have hstrip : ∀ c gy r, 0 ≤ r → r < N →
      (c, gy) ∈ (renderOps q H r).map (fun op => (op.gx, op.gy)) → 0 ≤ c ∧ c < N * q := by
    intro c gy r hr0 hrN hmem
    rw [mem_strip] at hmem
    have := strip_inside hq.1 hq.2.1 ⟨hr0, hrN⟩ hmem.1
    omega
  have hfind : ∀ c, 0 ≤ c → c < N * q →
      ∃ r, 0 ≤ r ∧ r < N ∧ (c, 0) ∈ (renderOps q H r).map (fun op => (op.gx, op.gy)) := by
    intro c h0 h1
    obtain ⟨r, hr0, hrN, hx0, hx1⟩ := strip_of_column (N := N) h0 h1 hq.1
    exact ⟨r, hr0, hrN, mem_strip.mpr ⟨⟨hx0, hx1⟩, le_refl 0, by omega⟩⟩
  refine ⟨?_, ?_, trivial, ?_, ?_⟩
  · intro c
    constructor
    · rintro ⟨r, gy, hr0, hrN, hmem⟩
      exact hstrip c gy r hr0 hrN hmem
    · rintro ⟨h0, h1⟩
      obtain ⟨r, hr0, hrN, hmem⟩ := hfind c h0 h1
      exact ⟨r, 0, hr0, hrN, hmem⟩
  · intro c
    simp only [List.mem_flatMap, mem_loopRange, copyOps_eq_renderOps]
    constructor
    · rintro ⟨gy, r, ⟨hr0, hrN⟩, hmem⟩
      exact hstrip c gy r hr0 hrN hmem
    · rintro ⟨h0, h1⟩
      obtain ⟨r, hr0, hrN, hmem⟩ := hfind c h0 h1
      exact ⟨0, r, ⟨hr0, hrN⟩, hmem⟩
  · intro c gy r hc _ hr0 hrN
    constructor
    · intro hmem
      have := hstrip c gy r hr0 hrN hmem
      omega
    · by_cases hr : r = 0
      · subst hr
        rw [written_root]
        simp only [List.mem_flatMap, mem_loopRange, copyOps_eq_renderOps, ← hqdef]
        rintro ⟨s, ⟨hs0, hsN⟩, hmem⟩
        have := hstrip c gy s hs0 hsN hmem
        omega
      · rw [written_worker _ _ _ _ _ hr]
        exact List.not_mem_nil _
  · intro hlt r hr0 hrN
    have hq0 : q = 0 := by
      rcases eq_or_lt_of_le hq.1 with h | h
      · exact h.symm
      · exfalso
        have : N * 1 ≤ N * q := mul_le_mul_of_nonneg_left (by omega) (by omega)
        omega
    subst hq0
    simp [renderOps, loopRange]

/-- Witness of C9 at `W = 5`, `H = 2`, `N = 2`: column 4 is the one trailing column; no
process renders pixel `(4, 0)` and the coordinator never writes it. -/
theorem c9_columns_covered_witness :
    (0 : Int) ≤ 5 ∧ (1 : Int) ≤ 2 ∧
      ((4, 0) ∉ rendered
          (groupProcess (S := Int) (T := Nat) (fun x y _ => ⟨x, y, 0⟩) (fun r => r.toNat)
            ⟨5, 2, 1, ""⟩ 2 0).trace ∧
        (4, 0) ∉ written
          (groupProcess (S := Int) (T := Nat) (fun x y _ => ⟨x, y, 0⟩) (fun r => r.toNat)
            ⟨5, 2, 1, ""⟩ 2 0).trace) :=
  ⟨by decide, by decide,
    (c9_columns_covered (S := Int) (T := Nat) (fun x y _ => ⟨x, y, 0⟩) (fun r => r.toNat)
      5 2 2 1 "" (by decide) (by decide) (by decide)).2.2.2.1 4 0 0 (by decide) (by decide)
        (by decide) (by decide)⟩

/-- C10: for `W ≥ 0`, `N ≥ 1` and any `H`, whether or not `N` divides `W`: every coordinate a
process passes to the renderer and every coordinate written in the final image lies in
`[0,W) × [0,H)`; every tile coordinate used by `myPiece.set` or `srcPiece.get` lies in the
`(W/N) × H` extent of the tile; and the assembly writes no pixel of the final image twice. -/
theorem c10_accesses_in_bounds {S T : Type} [Inhabited S] [LinearOrder T]
    (computePixel : Int → Int → Int → Color S) (time : Int → T)
    (W H N numOfSamples : Int) (sceneFile : String) (hW : 0 ≤ W) (hN : 1 ≤ N) :
    (∀ r, 0 ≤ r → r < N →
      (∀ p ∈ rendered
          (groupProcess computePixel time ⟨W, H, numOfSamples, sceneFile⟩ N r).trace,
        (0 ≤ p.1 ∧ p.1 < W) ∧ (0 ≤ p.2 ∧ p.2 < H)) ∧
      (∀ p ∈ written
          (groupProcess computePixel time ⟨W, H, numOfSamples, sceneFile⟩ N r).trace,
        (0 ≤ p.1 ∧ p.1 < W) ∧ (0 ≤ p.2 ∧ p.2 < H)) ∧
      (∀ p ∈ tileAccesses
          (groupProcess computePixel time ⟨W, H, numOfSamples, sceneFile⟩ N r).trace,
        (0 ≤ p.1 ∧ p.1 < W / N) ∧ (0 ≤ p.2 ∧ p.2 < H))) ∧
    (written (groupProcess computePixel time ⟨W, H, numOfSamples, sceneFile⟩ N 0).trace).Nodup := by
  have hq := tdiv_facts hW hN
  have hdivq : W / N = W.tdiv N := (Int.tdiv_eq_ediv hW (by omega)).symm
  have hstrip : ∀ (p : Int × Int) r, 0 ≤ r → r < N →
      p ∈ (renderOps (W.tdiv N) H r).map (fun op => (op.gx, op.gy)) →
        (0 ≤ p.1 ∧ p.1 < W) ∧ (0 ≤ p.2 ∧ p.2 < H) := by
    rintro ⟨c, gy⟩ r hr0 hrN hmem
    rw [mem_strip] at hmem
    have := strip_inside hq.1 hq.2.1 ⟨hr0, hrN⟩ hmem.1
    exact ⟨by simp only; omega, hmem.2⟩
  refine ⟨?_, ?_⟩
  · intro r hr0 hrN
    refine ⟨?_, ?_, ?_⟩
    · intro p hp
      rw [rendered_groupProcess] at hp
      exact hstrip p r hr0 hrN hp
    · intro p hp
      by_cases hr : r = 0
      · subst hr
        rw [written_root] at hp
        simp only [List.mem_flatMap, mem_loopRange, copyOps_eq_renderOps] at hp
        obtain ⟨s, ⟨hs0, hsN⟩, hmem⟩ := hp
        exact hstrip p s hs0 hsN hmem
      · rw [written_worker _ _ _ _ _ hr] at hp
        exact absurd hp (List.not_mem_nil _)
    · intro p hp
      rw [hdivq]
      exact tileAccesses_inside computePixel time ⟨W, H, numOfSamples, sceneFile⟩ N r p hp
  · rw [written_root]
    exact assembly_nodup _ _ _

/-- Witness of C10 at `W = 5`, `H = 2`, `N = 2`. -/
theorem c10_accesses_in_bounds_witness :
    (0 : Int) ≤ 5 ∧ (1 : Int) ≤ 2 ∧
      (written (groupProcess (S := Int) (T := Nat) (fun x y _ => ⟨x, y, 0⟩) (fun r => r.toNat)
        ⟨5, 2, 1, ""⟩ 2 0).trace).Nodup :=
  ⟨by decide, by decide,
    (c10_accesses_in_bounds (S := Int) (T := Nat) (fun x y _ => ⟨x, y, 0⟩) (fun r => r.toNat)
      5 2 2 1 "" (by decide) (by decide)).2⟩

/-- C5: for `N ≥ 1` and durations `time 0, .., time (N-1)`: the coordinator prints one
`Max Time` line, whose value is the duration of some process and is at least the duration of
every process, that is their maximum; no other process prints a `Max Time` line; and every
process prints exactly one `Rank .. Time ..` line, with its own rank and duration. -/
theorem c5_reported_maximum {S T : Type} [Inhabited S] [LinearOrder T]
    (computePixel : Int → Int → Int → Color S) (time : Int → T)
    (W H N numOfSamples : Int) (sceneFile : String) (hN : 1 ≤ N) :
    (∃ m : T,
      maxReports (groupProcess computePixel time ⟨W, H, numOfSamples, sceneFile⟩ N 0).trace
        = [m] ∧
      (∃ i, 0 ≤ i ∧ i < N ∧ m = time i) ∧
      ∀ i, 0 ≤ i → i < N → time i ≤ m) ∧
    (∀ r, r ≠ 0 →
      maxReports (groupProcess computePixel time ⟨W, H, numOfSamples, sceneFile⟩ N r).trace
        = []) ∧
    (∀ r,
      timeReports (groupProcess computePixel time ⟨W, H, numOfSamples, sceneFile⟩ N r).trace
        = [(r, time r)]) := by
  have hmax := mpiReduceMax_spec time N hN
  refine ⟨⟨mpiReduceMax time N, ?_, hmax.1, hmax.2⟩, ?_, ?_⟩
  · rw [maxReports_groupProcess, if_pos rfl]
  · intro r hr
    rw [maxReports_groupProcess, if_neg hr]
  · intro r
    exact timeReports_groupProcess computePixel time _ N r

/-- Witness of C5 with three processes of durations 7, 9 and 4: the coordinator reports 9. -/
theorem c5_reported_maximum_witness :
    (1 : Int) ≤ 3 ∧
      maxReports (groupProcess (S := Int) (T := Nat) (fun x y _ => ⟨x, y, 0⟩)
        (fun r => if r = 0 then 7 else if r = 1 then 9 else 4) ⟨4, 2, 1, ""⟩ 3 0).trace = [9] := by
  refine ⟨by decide, ?_⟩
  obtain ⟨m, h1, ⟨i, hi0, hi1, h2⟩, h3⟩ :=
    (c5_reported_maximum (S := Int) (T := Nat) (fun x y _ => ⟨x, y, 0⟩)
      (fun r => if r = 0 then 7 else if r = 1 then 9 else 4) 4 2 3 1 "" (by decide)).1
  have h9 := h3 1 (by decide) (by decide)
  simp only at h9 h2
  have hm : m = 9 := by
    have hle : m ≤ 9 := by
      rw [h2]
      split
      · decide
      · split <;> decide
    have h9' : (9 : Nat) ≤ m := by simpa using h9
    omega
  rw [h1, hm]

theorem saves_root {S T : Type} [Inhabited S] [LinearOrder T]
    (computePixel : Int → Int → Int → Color S) (time : Int → T) (a : Args) (size : Int) :
    saves (groupProcess computePixel time a size 0).trace = [outputName size] := by
  rw [groupProcess_root]
  have hpre := saves_openingEvents time a size 0
  unfold saves at hpre ⊢
  simp only [List.filterMap_append, hpre, List.filterMap_cons, Event.savedName,
    List.filterMap_nil, List.append_nil, List.nil_append]
  rw [filterMap_flatMap]
  have h2 : ∀ src : Int, List.filterMap Event.savedName
      (gatherEvents (a.viewPlaneResolutionX.tdiv size) a.viewPlaneResolutionY src :
        List (Event T)) = [] := fun src => saves_gatherEvents _ _ src
  rw [flatMap_nil_of_forall _ _ h2]
  rfl

theorem usesFinalImage_openingEvents {T : Type} [LinearOrder T] (time : Int → T) (a : Args)
    (size rank : Int) (e : Event T) (he : e ∈ openingEvents time a size rank) :
    e.usesFinalImage = false := by
  unfold openingEvents renderEvents at he
  simp only [List.mem_append, List.mem_cons, List.mem_flatMap, List.mem_singleton,
    List.not_mem_nil, or_false] at he
  rcases he with (((he | he) | he) | he) | he
  · rcases he with rfl | rfl | rfl <;> rfl
  · obtain ⟨op, _, rfl | rfl⟩ := he <;> rfl
  · rcases he with rfl | rfl <;> rfl
  · split at he
    · rw [List.mem_singleton] at he
      subst he
      rfl
    · exact absurd he (List.not_mem_nil _)
  · subst he
    rfl

/-- C7: the coordinator saves exactly once, under the name `outputName N`, a function of `N`
alone; in its trace the save comes right after the `N` blocks "receive from `src`, copy the
tile of `src` into the final image" for `src = 0, 1, .., N-1` in this order, and nothing
before these blocks is a receive, a write to the final image or a save; a process of rank
other than 0 never creates, writes or saves the final image. -/
theorem c7_saved_once_after_gather {S T : Type} [Inhabited S] [LinearOrder T]
    (computePixel : Int → Int → Int → Color S) (time : Int → T)
    (W H N numOfSamples : Int) (sceneFile : String) :
    saves (groupProcess computePixel time ⟨W, H, numOfSamples, sceneFile⟩ N 0).trace
      = [outputName N] ∧
    (∃ head : List (Event T),
      (groupProcess computePixel time ⟨W, H, numOfSamples, sceneFile⟩ N 0).trace =
        head
          ++ ((loopRange N).flatMap fun src =>
              Event.allocSrc (W.tdiv N) H :: Event.recv (W.tdiv N * H * 3) src ::
                copyEvents (W.tdiv N) H src)
          ++ [Event.saveJPEG (outputName N), Event.mpiWait, Event.mpiFinalize] ∧
      receives head = [] ∧ written head = [] ∧ saves head = []) ∧
    (∀ r, r ≠ 0 →
      ∀ e ∈ (groupProcess computePixel time ⟨W, H, numOfSamples, sceneFile⟩ N r).trace,
        e.usesFinalImage = false) := by
  refine ⟨saves_root computePixel time _ N, ?_, ?_⟩
  · refine ⟨openingEvents time ⟨W, H, numOfSamples, sceneFile⟩ N 0 ++ [Event.allocFinal W H],
      ?_, ?_, ?_, ?_⟩
    · rw [groupProcess_root]
      have hg : (gatherEvents (W.tdiv N) H : Int → List (Event T)) = fun src =>
          Event.allocSrc (W.tdiv N) H :: Event.recv (W.tdiv N * H * 3) src ::
            copyEvents (W.tdiv N) H src := by
        funext src
        rfl
      simp only [List.append_assoc, List.singleton_append, hg]
    · have h := receives_openingEvents time ⟨W, H, numOfSamples, sceneFile⟩ N 0
      unfold receives at h ⊢
      simp [List.filterMap_append, h, Event.receivedFrom]
    · have h := written_openingEvents time ⟨W, H, numOfSamples, sceneFile⟩ N 0
      unfold written at h ⊢
      simp [List.filterMap_append, h, Event.writtenAt]
    · have h := saves_openingEvents time ⟨W, H, numOfSamples, sceneFile⟩ N 0
      unfold saves at h ⊢
      simp [List.filterMap_append, h, Event.savedName]
  · intro r hr e he
    rw [groupProcess_worker _ _ _ _ _ hr] at he
    simp only [List.mem_append, List.mem_cons, List.not_mem_nil, or_false] at he
    rcases he with he | rfl | rfl
    · exact usesFinalImage_openingEvents time _ N r e he
    · rfl
    · rfl

/-- Witness of C7 with two processes on a `4 × 2` image: process 1 never touches the final
image. -/
theorem c7_saved_once_after_gather_witness :
    (1 : Int) ≠ 0 ∧
      ∀ e ∈ (groupProcess (S := Int) (T := Nat) (fun x y _ => ⟨x, y, 0⟩) (fun r => r.toNat)
        ⟨4, 2, 1, ""⟩ 2 1).trace, e.usesFinalImage = false :=
  ⟨by decide,
    (c7_saved_once_after_gather (S := Int) (T := Nat) (fun x y _ => ⟨x, y, 0⟩)
      (fun r => r.toNat) 4 2 2 1 "").2.2 1 (by decide)⟩

/-- C2, as the code behaves: for `W ≥ 1`, `H ≥ 1`, `N ≥ 1` with `N` not dividing `W` the
coordinator finishes without error and saves the image, although pixel `(W-1, 0)` is rendered
by no process and is never written by the assembler. -/
theorem c2_remainder_columns_dropped {S T : Type} [Inhabited S] [LinearOrder T]
    (computePixel : Int → Int → Int → Color S) (time : Int → T)
    (W H N numOfSamples : Int) (sceneFile : String)
    (hW : 1 ≤ W) (hH : 1 ≤ H) (hN : 1 ≤ N) (hnd : ¬ N ∣ W) :
    (0 ≤ W - 1 ∧ W - 1 < W ∧ (0 : Int) ≤ 0 ∧ 0 < H) ∧
    (groupProcess computePixel time ⟨W, H, numOfSamples, sceneFile⟩ N 0).outcome
      = Outcome.finished ∧
    saves (groupProcess computePixel time ⟨W, H, numOfSamples, sceneFile⟩ N 0).trace
      = [outputName N] ∧
    (W - 1, 0) ∉ written
      (groupProcess computePixel time ⟨W, H, numOfSamples, sceneFile⟩ N 0).trace ∧
    ∀ r, 0 ≤ r → r < N →
      (W - 1, 0) ∉ rendered
        (groupProcess computePixel time ⟨W, H, numOfSamples, sceneFile⟩ N r).trace := by
  have hq := tdiv_facts (show 0 ≤ W by omega) hN
  have hlt : N * W.tdiv N < W := by
    rcases eq_or_lt_of_le hq.2.1 with h | h
    · exact absurd (Dvd.intro _ h) hnd
    · exact h
  have hstrip : ∀ r, 0 ≤ r → r < N →
      (W - 1, 0) ∉ (renderOps (W.tdiv N) H r).map (fun op => (op.gx, op.gy)) := by
    intro r hr0 hrN hmem
    rw [mem_strip] at hmem
    have := strip_inside hq.1 hq.2.1 ⟨hr0, hrN⟩ hmem.1
    omega
  refine ⟨⟨by omega, by omega, le_refl 0, by omega⟩, ?_, saves_root computePixel time _ N, ?_, ?_⟩
  · rw [groupProcess_root]
  · rw [written_root]
    simp only [List.mem_flatMap, mem_loopRange, copyOps_eq_renderOps]
    rintro ⟨s, ⟨hs0, hsN⟩, hmem⟩
    exact hstrip s hs0 hsN hmem
  · intro r hr0 hrN
    rw [rendered_groupProcess]
    exact hstrip r hr0 hrN

/-- The run `W = 5`, `H = 2`, `N = 2`: the image is saved although pixel `(4, 0)` was never
written. -/
theorem c2_remainder_columns_dropped_witness :
    (1 : Int) ≤ 5 ∧ (1 : Int) ≤ 2 ∧ (1 : Int) ≤ 2 ∧ ¬ (2 : Int) ∣ 5 ∧
      (groupProcess (S := Int) (T := Nat) (fun x y _ => ⟨x, y, 0⟩) (fun r => r.toNat)
        ⟨5, 2, 1, ""⟩ 2 0).outcome = Outcome.finished ∧
      (5 - 1, 0) ∉ written
        (groupProcess (S := Int) (T := Nat) (fun x y _ => ⟨x, y, 0⟩) (fun r => r.toNat)
          ⟨5, 2, 1, ""⟩ 2 0).trace :=
  ⟨by decide, by decide, by decide, by decide,
    (c2_remainder_columns_dropped (S := Int) (T := Nat) (fun x y _ => ⟨x, y, 0⟩)
      (fun r => r.toNat) 5 2 2 1 "" (by decide) (by decide) (by decide) (by decide)).2.1,
    (c2_remainder_columns_dropped (S := Int) (T := Nat) (fun x y _ => ⟨x, y, 0⟩)
      (fun r => r.toNat) 5 2 2 1 "" (by decide) (by decide) (by decide) (by decide)).2.2.2.1⟩

end Raytracing
